import Mathlib

/-!
Verification of the manifest rewrite and release engine of the `flow` package
(`src/flow/process.go`, `src/flow/flow.go`, and the variant of the same package
in `src/unnamed/part_000`) against its natural-language specification.

The Go code is shallowly embedded: the configuration types (`Config`,
`Application`, `Manifest`, `Filters`, and the `gitbot` value types) are
reconstructed from their uses in the source; the pure string functions
(`shouldProcess`, `getBranchName`, `getCommitMessage`, `newRelease`,
`getApplicationByImage`) are translated directly; the effectful calls of
`process` (`release.Commit`, `release.CreatePR`) are abstracted by an oracle
recording, for each manifest, whether the commit succeeds, and the outcome of
pull-request creation. The process-wide configuration singleton `cfg` becomes
an explicit parameter.
-/

namespace Flow

/-- `Filters` from the configuration: inclusion/exclusion version-prefix
lists, reconstructed from their uses in `shouldProcess`. -/
structure Filters where
  IncludePrefixes : List String
  ExcludePrefixes : List String
  deriving Repr, DecidableEq

/-- `Manifest` from the configuration: one deployment target of an
Application, reconstructed from its uses in `src/flow/process.go`. -/
structure Manifest where
  Env : String
  Files : List String
  Filters : Filters
  BaseBranch : String
  Labels : List String
  CommitWithoutPR : Bool
  ShowSourceOwner : Bool
  HideSourceName : Bool
  HideSourceReleaseDesc : Bool
  PRBody : String
  deriving Repr, DecidableEq

/-- `Application` from the configuration, reconstructed from its uses in
`src/flow/process.go`. -/
structure Application where
  Name : String
  Image : String
  SourceOwner : String
  SourceName : String
  ManifestOwner : String
  ManifestName : String
  ManifestBaseBranch : String
  AdditionalRewriteKeys : List String
  AdditionalRewritePrefix : List String
  Manifests : List Manifest
  deriving Repr, DecidableEq

/-- Commit author part of the configuration (`cfg.GitAuthor`). -/
structure GitAuthor where
  Name : String
  Email : String
  deriving Repr, DecidableEq

/-- The process-wide configuration singleton `cfg` (`src/flow/flow.go` sets it
in `New`); passed explicitly here. Fields reconstructed from their uses. -/
structure Config where
  ApplicationList : List Application
  DefaultBranch : String
  DefaultManifestOwner : String
  DefaultManifestName : String
  GitAuthor : GitAuthor
  deriving Repr, DecidableEq

/-- `shouldProcess` (src/flow/process.go lines 110-135; identical in
src/unnamed/part_000 lines 91-116): reject empty and "latest" versions, then
reject any version matching an exclude entry by string prefix, then
default-allow when the include list is empty, else accept exactly the versions
matching some include entry by prefix. The Go loops with early `return` are
rendered as `List.any`. -/
def shouldProcess (m : Manifest) (version : String) : Bool :=
  if version = "" then false
  else if version = "latest" then false
  else if m.Filters.ExcludePrefixes.any (fun p => p.isPrefixOf version) then false
  else if m.Filters.IncludePrefixes.length = 0 then true
  else m.Filters.IncludePrefixes.any (fun p => p.isPrefixOf version)

/-- The empty string is a prefix of every string (`strings.HasPrefix(v, "")`
is always true). -/
theorem empty_isPrefixOf (v : String) : "".isPrefixOf v = true := by
  simp [String.isPrefixOf, String.substrEq, String.substrEq.loop]

/-- A manifest with empty filter lists, used as a concrete test input. -/
def mNoFilters : Manifest :=
  { Env := "prod", Files := ["deploy.yaml"], Filters := ⟨[], []⟩,
    BaseBranch := "", Labels := [], CommitWithoutPR := false,
    ShowSourceOwner := false, HideSourceName := false,
    HideSourceReleaseDesc := false, PRBody := "" }

/-- C5, as stated, is false: for the version `""` and a manifest with empty
include and exclude lists, no exclude entry is a prefix of the version, yet
`shouldProcess` returns `false` (the empty-version guard fires first). -/
theorem shouldProcess_iff_no_exclude_fails_on_empty_version :
    ¬ (shouldProcess mNoFilters "" = true ↔
        mNoFilters.Filters.ExcludePrefixes.any (fun p => p.isPrefixOf "") = false) := by
  decide

/-- C5 (amended): for every manifest whose include list is empty and every
version other than `""` and `"latest"`, `shouldProcess m v` is true iff no
entry of the exclude list is a prefix of `v`. -/
theorem shouldProcess_iff_no_exclude (m : Manifest) (v : String)
    (hinc : m.Filters.IncludePrefixes = [])
    (hv : v ≠ "") (hl : v ≠ "latest") :
    shouldProcess m v = true ↔
      m.Filters.ExcludePrefixes.any (fun p => p.isPrefixOf v) = false := by
  simp only [shouldProcess, if_neg hv, if_neg hl, hinc]
  cases h : (m.Filters.ExcludePrefixes.any (fun p => p.isPrefixOf v)) <;> simp

/-- Witness for C5 (amended) at a concrete manifest and version. -/
theorem shouldProcess_iff_no_exclude_witness :
    shouldProcess mNoFilters "v1.2.3" = true ↔
      mNoFilters.Filters.ExcludePrefixes.any (fun p => p.isPrefixOf "v1.2.3") = false :=
  shouldProcess_iff_no_exclude mNoFilters "v1.2.3" (by decide)
    (by decide) (by decide)

/-- C6: a version equal to `""` or to the literal `"latest"` is rejected by
`shouldProcess` for every manifest, whatever its filters. -/
theorem shouldProcess_rejects_empty_and_latest (m : Manifest) (v : String)
    (h : v = "" ∨ v = "latest") :
    shouldProcess m v = false := by
  rcases h with h | h <;> simp [shouldProcess, h]

/-- A manifest with permissive filters (the empty string as an include entry),
used to exercise the "regardless of filters" part of C6. -/
def mIncludeAll : Manifest :=
  { mNoFilters with Filters := ⟨[""], []⟩ }

/-- Witness for C6 at the version "latest" and a manifest whose include list
would otherwise accept every version. -/
theorem shouldProcess_rejects_empty_and_latest_witness :
    shouldProcess mIncludeAll "latest" = false :=
  shouldProcess_rejects_empty_and_latest mIncludeAll "latest" (Or.inr rfl)

/-- C10: an empty string in the exclude list rejects every version (the empty
string is a prefix of every string); an empty string in the include list
accepts every version that is non-empty, not "latest", and not excluded. -/
theorem shouldProcess_empty_string_filter_entries (m : Manifest) (v : String) :
    ("" ∈ m.Filters.ExcludePrefixes → shouldProcess m v = false) ∧
    ("" ∈ m.Filters.IncludePrefixes → v ≠ "" → v ≠ "latest" →
      m.Filters.ExcludePrefixes.any (fun p => p.isPrefixOf v) = false →
      shouldProcess m v = true) := by
  constructor
  · intro hex
    by_cases hv : v = ""
    · simp [shouldProcess, hv]
    by_cases hl : v = "latest"
    · simp [shouldProcess, hl]
    have hany : m.Filters.ExcludePrefixes.any (fun p => p.isPrefixOf v) = true := by
      exact List.any_eq_true.mpr ⟨"", hex, empty_isPrefixOf v⟩
    simp [shouldProcess, hv, hl, hany]
  · intro hin hv hl hnoex
    have hlen : m.Filters.IncludePrefixes.length ≠ 0 := by
      intro h0
      rw [List.length_eq_zero] at h0
      simp [h0] at hin
    have hany : m.Filters.IncludePrefixes.any (fun p => p.isPrefixOf v) = true := by
      exact List.any_eq_true.mpr ⟨"", hin, empty_isPrefixOf v⟩
    simp [shouldProcess, hv, hl, hnoex, hlen, hany]

/-- Witness for C10 at a concrete manifest carrying the empty string in both
filter lists (the exclude side dominates), and one with it only in the include
list. -/
theorem shouldProcess_empty_string_filter_entries_witness :
    shouldProcess { mNoFilters with Filters := ⟨[], [""]⟩ } "v1" = false ∧
    shouldProcess mIncludeAll "v1" = true :=
  ⟨(shouldProcess_empty_string_filter_entries
      { mNoFilters with Filters := ⟨[], [""]⟩ } "v1").1 (by decide),
   (shouldProcess_empty_string_filter_entries mIncludeAll "v1").2
      (by decide) (by decide) (by decide) (by decide)⟩

/-- `gitbot.Repo`: target repository coordinates, reconstructed from the
composite literal in `newRelease`. -/
structure Repo where
  SourceOwner : String
  SourceRepo : String
  BaseBranch : String
  CommitBranch : String
  deriving Repr, DecidableEq

/-- `gitbot.Author`: commit author, reconstructed from its use in
`newRelease`. -/
structure Author where
  Name : String
  Email : String
  deriving Repr, DecidableEq

/-- `gitbot.Release`: the transient release descriptor, reconstructed from the
arguments of `gitbot.NewRelease` in `src/flow/process.go`. -/
structure Release where
  Repo : Repo
  Author : Author
  Message : String
  Body : String
  Labels : List String
  deriving Repr, DecidableEq

/-- `gitbot.NewRelease` constructor (field-by-field, per its call site in
`newRelease`). -/
def NewRelease (repo : Repo) (author : Author) (message body : String)
    (labels : List String) : Release :=
  { Repo := repo, Author := author, Message := message, Body := body,
    Labels := labels }

/-- `getBranchName` (src/flow/process.go lines 199-214): branch is
`"rollout/" + env`, then `-owner-name` or `-name` depending on the
`ShowSourceOwner` / `HideSourceName` flags, then `-version`. -/
def getBranchName (a : Application) (m : Manifest) (version : String) : String :=
  let branch := "rollout/" ++ m.Env
  let repo := a.SourceName
  let repo := if m.ShowSourceOwner then a.SourceOwner ++ "-" ++ repo else repo
  let branch := if !m.HideSourceName then branch ++ "-" ++ repo else branch
  branch ++ "-" ++ version

/-- `getCommitMessage` (src/flow/process.go lines 216-231): same shape as the
branch name, space-separated, with `owner/name`. -/
def getCommitMessage (a : Application) (m : Manifest) (version : String) : String :=
  let message := "Rollout" ++ " " ++ m.Env
  let repo := a.SourceName
  let repo := if m.ShowSourceOwner then a.SourceOwner ++ "/" ++ repo else repo
  let message := if !m.HideSourceName then message ++ " " ++ repo else message
  message ++ " " ++ version

/-- `newRelease` (src/flow/process.go lines 137-197). The sequential
reassignments of `baseBranch`, `commitBranch`, `manifestOwner` and
`manifestName` are rendered as shadowing `let`s in the source's order. -/
def newRelease (cfg : Config) (app : Application) (manifest : Manifest)
    (version : String) : Release :=
  let branchName := getBranchName app manifest version
  let message := getCommitMessage app manifest version
  let baseBranch := app.ManifestBaseBranch
  let baseBranch := if baseBranch = "" then cfg.DefaultBranch else baseBranch
  let baseBranch := if baseBranch = "" then "master" else baseBranch
  let baseBranch := if manifest.BaseBranch ≠ "" then manifest.BaseBranch else baseBranch
  let commitBranch := branchName
  let commitBranch := if manifest.CommitWithoutPR then baseBranch else commitBranch
  let manifestOwner := cfg.DefaultManifestOwner
  let manifestOwner := if app.ManifestOwner ≠ "" then app.ManifestOwner else manifestOwner
  let manifestName := cfg.DefaultManifestName
  let manifestName := if app.ManifestName ≠ "" then app.ManifestName else manifestName
  let labels := [app.SourceName] ++ [manifest.Env] ++ manifest.Labels
  NewRelease
    { SourceOwner := manifestOwner, SourceRepo := manifestName,
      BaseBranch := baseBranch, CommitBranch := commitBranch }
    { Name := cfg.GitAuthor.Name, Email := cfg.GitAuthor.Email }
    message "" labels

/-- C1: the base branch of the release built by `newRelease` follows the
precedence manifest-level override, then application-level override, then
global default, then the literal "master". -/
theorem newRelease_baseBranch (cfg : Config) (app : Application)
    (manifest : Manifest) (version : String) :
    (newRelease cfg app manifest version).Repo.BaseBranch =
      (if manifest.BaseBranch ≠ "" then manifest.BaseBranch
       else if app.ManifestBaseBranch ≠ "" then app.ManifestBaseBranch
       else if cfg.DefaultBranch ≠ "" then cfg.DefaultBranch
       else "master") := by
  by_cases h1 : manifest.BaseBranch = "" <;>
    by_cases h2 : app.ManifestBaseBranch = "" <;>
      by_cases h3 : cfg.DefaultBranch = "" <;>
        simp [newRelease, NewRelease, h1, h2, h3]

/-- C7: `getBranchName` and `getCommitMessage` are pure functions of
(Application, Manifest, version) in this embedding — they read no other
state — so two calls with equal arguments return identical strings. -/
theorem branch_and_message_deterministic (a₁ a₂ : Application)
    (m₁ m₂ : Manifest) (v₁ v₂ : String)
    (ha : a₁ = a₂) (hm : m₁ = m₂) (hv : v₁ = v₂) :
    getBranchName a₁ m₁ v₁ = getBranchName a₂ m₂ v₂ ∧
    getCommitMessage a₁ m₁ v₁ = getCommitMessage a₂ m₂ v₂ := by
  subst ha; subst hm; subst hv; exact ⟨rfl, rfl⟩

/-- A concrete application used as a test input. -/
def appW : Application :=
  { Name := "app", Image := "registry/app", SourceOwner := "octo",
    SourceName := "app", ManifestOwner := "", ManifestName := "",
    ManifestBaseBranch := "", AdditionalRewriteKeys := [],
    AdditionalRewritePrefix := [], Manifests := [mNoFilters] }

/-- Witness for C7 at concrete arguments. -/
theorem branch_and_message_deterministic_witness :
    getBranchName appW mNoFilters "v1" = getBranchName appW mNoFilters "v1" ∧
    getCommitMessage appW mNoFilters "v1" = getCommitMessage appW mNoFilters "v1" :=
  branch_and_message_deterministic appW appW mNoFilters mNoFilters "v1" "v1"
    rfl rfl rfl

/-- The `PullRequest` result record (src/flow/process.go lines 16-20): the Go
`error` field becomes an `Option String`. -/
structure PullRequest where
  env : String
  url : String
  err : Option String
  deriving Repr, DecidableEq

/-- `PullRequests` (src/flow/process.go line 14). -/
abbrev PullRequests := List PullRequest

/-- Oracle abstracting the two external git effects of `process`: whether
`release.Commit` returns an error for a given manifest, and the outcome of
`release.CreatePR` (error, or the URL it returns). -/
structure GitOracle where
  commitErr : Manifest → Bool
  createPR : Manifest → Except String String

/-- The manifest loop of `process` (src/flow/process.go lines 50-106): skip
manifests rejected by `shouldProcess`; on a commit error, log and `continue`
(no result entry); when `CommitWithoutPR` is set, skip PR creation entirely;
on a PR-creation error, log and `continue` (no result entry); on success,
append an entry carrying the environment name and the PR URL. -/
def processManifests (g : GitOracle) (version : String) :
    List Manifest → PullRequests
  | [] => []
  | manifest :: rest =>
    if !shouldProcess manifest version then processManifests g version rest
    else if g.commitErr manifest then processManifests g version rest
    else if manifest.CommitWithoutPR then processManifests g version rest
    else
      match g.createPR manifest with
      | Except.error _ => processManifests g version rest
      | Except.ok url =>
          { env := manifest.Env, url := url, err := none } ::
            processManifests g version rest

/-- `process` (src/flow/process.go lines 46-108), abstracted over the git
oracle. -/
def process (g : GitOracle) (app : Application) (version : String) :
    PullRequests :=
  processManifests g version app.Manifests

/-- Whether `release.CreatePR` succeeds for this manifest under the oracle. -/
def prSucceeded (g : GitOracle) (m : Manifest) : Bool :=
  match g.createPR m with
  | Except.ok _ => true
  | Except.error _ => false

/-- The URL `release.CreatePR` returns for this manifest (meaningful only
when `prSucceeded`). -/
def prURL (g : GitOracle) (m : Manifest) : String :=
  match g.createPR m with
  | Except.ok url => url
  | Except.error _ => ""

/-- The manifest loop keeps exactly the manifests that pass `shouldProcess`,
commit successfully, are not `CommitWithoutPR`, and whose PR creation
succeeds; each entry carries the PR URL and no error. -/
theorem processManifests_eq_filter_map (g : GitOracle) (version : String)
    (ms : List Manifest) :
    processManifests g version ms =
      (ms.filter (fun m => shouldProcess m version && !g.commitErr m &&
          !m.CommitWithoutPR && prSucceeded g m)).map
        (fun m => { env := m.Env, url := prURL g m, err := none }) := by
  induction ms with
  | nil => rfl
  | cons m rest ih =>
    rcases h1 : shouldProcess m version with _ | _ <;>
      rcases h2 : g.commitErr m with _ | _ <;>
        rcases h3 : m.CommitWithoutPR with _ | _ <;>
          rcases h4 : g.createPR m with e | u <;>
            simp [processManifests, List.filter_cons, prSucceeded, prURL,
              h1, h2, h3, h4, ih]

/-- An oracle whose commits always fail. -/
def gCommitFail : GitOracle :=
  { commitErr := fun _ => true,
    createPR := fun _ => Except.ok "https://github.com/o/m/pull/1" }

/-- C2, as stated, is false: for a concrete application whose single manifest
passes `shouldProcess` but whose commit fails, `process` returns the empty
sequence — the commit failure is logged and dropped, not collected as an
error entry. -/
theorem process_drops_commit_failures :
    shouldProcess mNoFilters "v1.2.3" = true ∧
    appW.Manifests = [mNoFilters] ∧
    process gCommitFail appW "v1.2.3" = [] :=
  ⟨by decide, rfl, rfl⟩

/-- C2 (amended): the result sequence of `process` contains exactly one entry
for each manifest that passed `shouldProcess`, whose commit succeeded, that
is not configured `CommitWithoutPR`, and whose PR creation succeeded, in
manifest order; each entry carries the created PR's URL. Manifests whose
commit or PR creation fails (and `CommitWithoutPR` manifests) contribute no
entry. -/
theorem process_results (g : GitOracle) (app : Application) (version : String) :
    process g app version =
      (app.Manifests.filter (fun m => shouldProcess m version &&
          !g.commitErr m && !m.CommitWithoutPR && prSucceeded g m)).map
        (fun m => { env := m.Env, url := prURL g m, err := none }) :=
  processManifests_eq_filter_map g version app.Manifests

/-- An oracle whose commits and PR creations always succeed. -/
def gOK : GitOracle :=
  { commitErr := fun _ => false,
    createPR := fun _ => Except.ok "https://github.com/o/m/pull/1" }

/-- A concrete configuration used as a test input. -/
def cfgW : Config :=
  { ApplicationList := [appW], DefaultBranch := "main",
    DefaultManifestOwner := "octo", DefaultManifestName := "manifests",
    GitAuthor := { Name := "bot", Email := "bot@example.com" } }

/-- C8: when `CommitWithoutPR` is set, the release's commit branch is the
resolved base branch and the manifest contributes no result entry for any
oracle (in `processManifests` the `CreatePR` branch is unreachable for such a
manifest, so no pull request is created); when it is not set, the commit
branch is the derived branch name. -/
theorem commitWithoutPR_behavior (cfg : Config) (app : Application)
    (manifest : Manifest) (version : String) :
    (manifest.CommitWithoutPR = true →
      (newRelease cfg app manifest version).Repo.CommitBranch =
        (newRelease cfg app manifest version).Repo.BaseBranch ∧
      ∀ (g : GitOracle) (rest : List Manifest),
        processManifests g version (manifest :: rest) =
          processManifests g version rest) ∧
    (manifest.CommitWithoutPR = false →
      (newRelease cfg app manifest version).Repo.CommitBranch =
        getBranchName app manifest version) := by
  constructor
  · intro h
    refine ⟨by simp [newRelease, NewRelease, h], ?_⟩
    intro g rest
    cases hs : shouldProcess manifest version <;>
      cases hc : g.commitErr manifest <;>
        simp [processManifests, h, hs, hc]
  · intro h
    simp [newRelease, NewRelease, h]

/-- A manifest configured for direct commits to its base branch. -/
def mDirect : Manifest :=
  { mNoFilters with CommitWithoutPR := true, BaseBranch := "main" }

/-- Witness for C8: the direct-commit manifest commits on the base branch and
yields no result entry; the ordinary manifest commits on the derived branch
name. -/
theorem commitWithoutPR_behavior_witness :
    ((newRelease cfgW appW mDirect "v1").Repo.CommitBranch =
        (newRelease cfgW appW mDirect "v1").Repo.BaseBranch ∧
      processManifests gOK "v1" [mDirect] = processManifests gOK "v1" []) ∧
    (newRelease cfgW appW mNoFilters "v1").Repo.CommitBranch =
      getBranchName appW mNoFilters "v1" :=
  ⟨⟨((commitWithoutPR_behavior cfgW appW mDirect "v1").1 rfl).1,
    ((commitWithoutPR_behavior cfgW appW mDirect "v1").1 rfl).2 gOK []⟩,
   (commitWithoutPR_behavior cfgW appW mNoFilters "v1").2 rfl⟩

/-- The catalog scan of `getApplicationByImage` (src/flow/process.go lines
233-240): first application whose `Image` equals the incoming image, else the
"No application found" error. -/
def findAppByImage (image : String) : List Application → Except String Application
  | [] => Except.error ("No application found for image " ++ image)
  | app :: rest =>
      if image = app.Image then Except.ok app else findAppByImage image rest

/-- `getApplicationByImage` over the explicit configuration. -/
def getApplicationByImage (cfg : Config) (image : String) :
    Except String Application :=
  findAppByImage image cfg.ApplicationList

/-- `processImage` (src/flow/process.go lines 32-44): resolve the application
by image, propagating the lookup error; otherwise run `process` (the returned
pull requests are only logged in the Go code; here they are carried in the
`ok` case). -/
def processImage (cfg : Config) (g : GitOracle) (image version : String) :
    Except String PullRequests :=
  match getApplicationByImage cfg image with
  | Except.error e => Except.error e
  | Except.ok app => Except.ok (process g app version)

/-- The catalog scan fails with the "No application found" error when no
application matches the image. -/
theorem findAppByImage_not_found (image : String) (l : List Application)
    (h : ∀ app ∈ l, app.Image ≠ image) :
    findAppByImage image l =
      Except.error ("No application found for image " ++ image) := by
  induction l with
  | nil => rfl
  | cons a rest ih =>
    have ha : ¬ image = a.Image := by
      intro he
      exact h a (List.mem_cons_self a rest) he.symm
    simp only [findAppByImage, if_neg ha]
    exact ih (fun x hx => h x (List.mem_cons_of_mem a hx))

/-- C9: for an image matching no application in the catalog,
`getApplicationByImage` returns the "No application found for image" error
and `processImage` propagates it without processing any manifest (no
`process` run occurs: the result is the same error for every oracle). -/
theorem processImage_unknown_image (cfg : Config) (g : GitOracle)
    (image version : String)
    (h : ∀ app ∈ cfg.ApplicationList, app.Image ≠ image) :
    getApplicationByImage cfg image =
      Except.error ("No application found for image " ++ image) ∧
    processImage cfg g image version =
      Except.error ("No application found for image " ++ image) := by
  have hfind := findAppByImage_not_found image cfg.ApplicationList h
  exact ⟨hfind, by simp [processImage, getApplicationByImage, hfind]⟩

/-- Witness for C9 at a concrete catalog and an unknown image. -/
theorem processImage_unknown_image_witness :
    processImage cfgW gOK "ghost" "v1" =
      Except.error ("No application found for image " ++ "ghost") :=
  (processImage_unknown_image cfgW gOK "ghost" "v1" (by decide)).2

/-- `versionRewriteRegex` (src/flow/process.go line 25): rewrite `version:`
values, but not when the same line carries a `do-not-rewrite` or `no-rewrite`
marker comment. -/
def versionRewriteRegex : String :=
  "(?!.*(do-not-rewrite|no-rewrite).*)(version: +(?<version>.*))"

/-- Whether the text from this position to the end of the line contains one
of the two marker words of `versionRewriteRegex` (what its lookahead
`.*(do-not-rewrite|no-rewrite).*` matches: `.` does not cross a newline). -/
def containsMarker : List Char → Bool
  | [] => false
  | c :: rest =>
      "do-not-rewrite".data.isPrefixOf (c :: rest) ||
      "no-rewrite".data.isPrefixOf (c :: rest) ||
      containsMarker rest

/-- Whether the pattern body `version: +` matches at this position: the
literal key `version:` followed by at least one space. -/
def versionKeyAt (cs : List Char) : Bool :=
  "version: ".data.isPrefixOf cs

/-- Whether the `version:` key occurs at any position of the line. -/
def containsVersionKey : List Char → Bool
  | [] => false
  | c :: rest =>
      "version:".data.isPrefixOf (c :: rest) || containsVersionKey rest

/-- Modelled from the spec: `gitbot.Release.MakeChangeFunc` (the `gitbot`
package of this repository is not under src/) applies a regexp2 pattern to
the fetched file content, replacing every match with the callback's result;
`process` registers `versionRewriteRegex` with the callback returning
`"version: " ++ version` (src/flow/process.go lines 63-66). Specialized to
that pattern on a single line: scanning left to right, a match begins at the
first position where the body `version: +` matches and the negative
lookahead holds, i.e. the rest of the line is free of the two markers; the
capture `.*` extends the match to the end of the line, so the whole tail is
replaced and scanning ends. When no position matches, the line is returned
unchanged. -/
def rewriteLineChars (v : List Char) : List Char → List Char
  | [] => []
  | c :: rest =>
      if versionKeyAt (c :: rest) && !containsMarker (c :: rest) then
        "version: ".data ++ v
      else
        c :: rewriteLineChars v rest

/-- The version-key rule on one line of text. -/
def rewriteVersionLine (v line : String) : String :=
  String.mk (rewriteLineChars v.data line.data)

/-- The version-key rule applied to a whole file, given as its list of lines
(`.` in regexp2 does not match newline, so no match spans lines). -/
def rewriteVersionFile (v : String) (lines : List String) : List String :=
  lines.map (rewriteVersionLine v)

/-- The boolean `List.isPrefixOf` agrees with the propositional `<+:`. -/
theorem isPrefixOf_eq_true_iff {l₁ l₂ : List Char} :
    l₁.isPrefixOf l₂ = true ↔ l₁ <+: l₂ :=
  List.isPrefixOf_iff_prefix

/-- A marker anywhere in the tail of a line is still a marker for the whole
line. -/
theorem containsMarker_append (xs ys : List Char)
    (h : containsMarker ys = true) : containsMarker (xs ++ ys) = true := by
  induction xs with
  | nil => simpa using h
  | cons c rest ih => simp [containsMarker, ih]

/-- A line in which the `version:` key never occurs is left unchanged. -/
theorem rewriteLineChars_of_no_key (v : List Char) (cs : List Char)
    (h : containsVersionKey cs = false) : rewriteLineChars v cs = cs := by
  induction cs with
  | nil => rfl
  | cons c rest ih =>
    have hk : "version:".data.isPrefixOf (c :: rest) = false := by
      cases hx : "version:".data.isPrefixOf (c :: rest)
      · rfl
      · exact absurd h (by simp [containsVersionKey, hx])
    have hka : versionKeyAt (c :: rest) = false := by
      cases hx : versionKeyAt (c :: rest)
      · rfl
      · exfalso
        have hp : ("version: ".data : List Char) <+: c :: rest :=
          isPrefixOf_eq_true_iff.mp hx
        have hp8 : ("version:".data : List Char) <+: c :: rest :=
          List.IsPrefix.trans (by decide) hp
        rw [← isPrefixOf_eq_true_iff] at hp8
        exact absurd hp8 (by simp [hk])
    have hrest : containsVersionKey rest = false := by
      have := h
      simp [containsVersionKey, hk] at this
      simpa using this
    simp [rewriteLineChars, hka, ih hrest]

/-- A line `version: <value>` whose value carries a marker (and no second
occurrence of the `version:` key) is left byte-for-byte unchanged: the
lookahead rejects the only candidate position. -/
theorem rewriteLineChars_marked (v cs : List Char)
    (hmark : containsMarker cs = true)
    (hnokey : containsVersionKey cs = false) :
    rewriteLineChars v ('v' :: 'e' :: 'r' :: 's' :: 'i' :: 'o' :: 'n' :: ':' :: ' ' ::cs) =
      'v' :: 'e' :: 'r' :: 's' :: 'i' :: 'o' :: 'n' :: ':' :: ' ' ::cs := by
  have hm : containsMarker ('v' :: 'e' :: 'r' :: 's' :: 'i' :: 'o' :: 'n' :: ':' :: ' ' ::cs) = true :=
    containsMarker_append "version: ".data cs hmark
  have h1 : (versionKeyAt ('v' :: 'e' :: 'r' :: 's' :: 'i' :: 'o' :: 'n' :: ':' :: ' ' ::cs) &&
      !containsMarker ('v' :: 'e' :: 'r' :: 's' :: 'i' :: 'o' :: 'n' :: ':' :: ' ' ::cs)) = false := by
    rw [hm]
    simp
  calc rewriteLineChars v ('v' :: 'e' :: 'r' :: 's' :: 'i' :: 'o' :: 'n' :: ':' :: ' ' ::cs)
      = if (versionKeyAt ('v' :: 'e' :: 'r' :: 's' :: 'i' :: 'o' :: 'n' :: ':' :: ' ' ::cs) &&
            !containsMarker ('v' :: 'e' :: 'r' :: 's' :: 'i' :: 'o' :: 'n' :: ':' :: ' ' ::cs)) = true
          then "version: ".data ++ v
          else 'v' :: rewriteLineChars v ('e' :: 'r' :: 's' :: 'i' :: 'o' :: 'n' :: ':' :: ' ' ::cs) := rfl
    _ = 'v' :: rewriteLineChars v ('e' :: 'r' :: 's' :: 'i' :: 'o' :: 'n' :: ':' :: ' ' ::cs) := by
          rw [h1]
          simp
    _ = 'v' :: 'e' :: 'r' :: 's' :: 'i' :: 'o' :: 'n' :: ':' :: ' ' :: rewriteLineChars v cs := rfl
    _ = 'v' :: 'e' :: 'r' :: 's' :: 'i' :: 'o' :: 'n' :: ':' :: ' ' ::cs := by
          rw [rewriteLineChars_of_no_key v cs hnokey]

/-- A marker-free `version: <value>` line is rewritten to `version: <v>`: the
match at the head of the line fires and the capture runs to the end of the
line. -/
theorem rewriteLineChars_clean (v cs : List Char)
    (hclean : containsMarker ('v' :: 'e' :: 'r' :: 's' :: 'i' :: 'o' :: 'n' :: ':' :: ' ' ::cs) = false) :
    rewriteLineChars v ('v' :: 'e' :: 'r' :: 's' :: 'i' :: 'o' :: 'n' :: ':' :: ' ' ::cs) =
      "version: ".data ++ v := by
  have h1 : (versionKeyAt ('v' :: 'e' :: 'r' :: 's' :: 'i' :: 'o' :: 'n' :: ':' :: ' ' ::cs) &&
      !containsMarker ('v' :: 'e' :: 'r' :: 's' :: 'i' :: 'o' :: 'n' :: ':' :: ' ' ::cs)) = true := by
    have hv : versionKeyAt ('v' :: 'e' :: 'r' :: 's' :: 'i' :: 'o' :: 'n' :: ':' :: ' ' ::cs) = true := by
      apply isPrefixOf_eq_true_iff.mpr
      exact ⟨cs, rfl⟩
    rw [hv, hclean]
    rfl
  calc rewriteLineChars v ('v' :: 'e' :: 'r' :: 's' :: 'i' :: 'o' :: 'n' :: ':' :: ' ' ::cs)
      = if (versionKeyAt ('v' :: 'e' :: 'r' :: 's' :: 'i' :: 'o' :: 'n' :: ':' :: ' ' ::cs) &&
            !containsMarker ('v' :: 'e' :: 'r' :: 's' :: 'i' :: 'o' :: 'n' :: ':' :: ' ' ::cs)) = true
          then "version: ".data ++ v
          else 'v' :: rewriteLineChars v ('e' :: 'r' :: 's' :: 'i' :: 'o' :: 'n' :: ':' :: ' ' ::cs) := rfl
    _ = "version: ".data ++ v := by rw [h1]; simp

/-- C4: in a file where one `version:` line's value carries a
`do-not-rewrite` or `no-rewrite` marker comment (and no second occurrence of
the `version:` key) and another `version:` line is marker-free, the
version-key rule leaves the marked line byte-for-byte unchanged while
rewriting the marker-free line to the new version. -/
theorem version_marker_line_preserved (ver value w : String)
    (rest : List String)
    (hmark : containsMarker value.data = true)
    (hnokey : containsVersionKey value.data = false)
    (hclean : containsMarker ("version: " ++ w).data = false) :
    rewriteVersionFile ver
        (("version: " ++ value) :: ("version: " ++ w) :: rest) =
      ("version: " ++ value) :: ("version: " ++ ver) ::
        rewriteVersionFile ver rest := by
  obtain ⟨cs⟩ := value
  obtain ⟨ds⟩ := w
  have e1 : rewriteVersionLine ver ("version: " ++ String.mk cs) =
      "version: " ++ String.mk cs := by
    show String.mk (rewriteLineChars ver.data
        ('v' :: 'e' :: 'r' :: 's' :: 'i' :: 'o' :: 'n' :: ':' :: ' ' ::cs)) =
      String.mk ('v' :: 'e' :: 'r' :: 's' :: 'i' :: 'o' :: 'n' :: ':' :: ' ' ::cs)
    rw [rewriteLineChars_marked ver.data cs hmark hnokey]
  have e2 : rewriteVersionLine ver ("version: " ++ String.mk ds) =
      "version: " ++ ver := by
    obtain ⟨vs⟩ := ver
    show String.mk (rewriteLineChars vs
        ('v' :: 'e' :: 'r' :: 's' :: 'i' :: 'o' :: 'n' :: ':' :: ' ' ::ds)) =
      String.mk ("version: ".data ++ vs)
    rw [rewriteLineChars_clean vs ds hclean]
  simp only [rewriteVersionFile, List.map_cons, e1, e2]

/-- Witness for C4 at a concrete file: the annotated line survives while its
neighbour is rewritten. -/
theorem version_marker_line_preserved_witness :
    rewriteVersionFile "2.0.0"
        [("version: " ++ "1.0.0 # do-not-rewrite"),
         ("version: " ++ "1.0.0"),
         "image: registry/app:1.0.0"] =
      [("version: " ++ "1.0.0 # do-not-rewrite"),
       ("version: " ++ "2.0.0"),
       "image: registry/app:1.0.0"] := by
  have h := version_marker_line_preserved "2.0.0" "1.0.0 # do-not-rewrite"
    "1.0.0" ["image: registry/app:1.0.0"] (by decide) (by decide) (by decide)
  rw [h]
  decide

/-- C4, as stated, is false: the negative lookahead of `versionRewriteRegex`
is evaluated at each candidate match position, so in the line
`version: 1.0 # do-not-rewrite version: 2.0` — a line of the form
`version: <value>` carrying the `do-not-rewrite` marker — the second
occurrence of the `version:` key sees a marker-free rest-of-line, matches,
and is rewritten: the line does not survive byte-for-byte. -/
theorem version_marker_second_key_rewritten :
    containsMarker ("1.0 # do-not-rewrite version: 2.0" : String).data = true ∧
    rewriteVersionLine "3.0" ("version: " ++ "1.0 # do-not-rewrite version: 2.0") =
      "version: 1.0 # do-not-rewrite version: 3.0" ∧
    rewriteVersionLine "3.0" ("version: " ++ "1.0 # do-not-rewrite version: 2.0") ≠
      "version: " ++ "1.0 # do-not-rewrite version: 2.0" := by
  refine ⟨by decide, by decide, by decide⟩

namespace Part000

/-- `retryCommitTries` (src/unnamed/part_000 line 18). -/
def retryCommitTries : Nat := 3

/-- One second in nanoseconds (Go `time.Second`). -/
def second : Nat := 1000000000

/-- The delay function passed to `retry.DelayType` in part_000's `process`
(lines 65-67): every attempt waits `time.Duration(3) * time.Second`,
independent of the attempt number. -/
def retryDelayNanos (_n : Nat) : Nat := 3 * second

/-- Success of `retry.Do` on the commit closure: `ok i` tells whether the
`i`-th call of `release.Commit` succeeds; `retry.Do` stops at the first
success and gives up once the configured attempt count is exhausted. -/
def retryDo (ok : Nat → Bool) : Nat → Nat → Bool
  | _, 0 => false
  | i, remaining + 1 => ok i || retryDo ok (i + 1) remaining

/-- Oracle for part_000's `process`: per-manifest, per-attempt commit
success, and the PR-creation outcome. -/
structure GitOracleR where
  commitOk : Manifest → Nat → Bool
  createPR : Manifest → Except String String

/-- The manifest loop of part_000's `process` (lines 43-88): as in
`src/flow/process.go`, except that the commit is wrapped in `retry.Do` with
`retryCommitTries` attempts and the fixed three-second delay; on exhaustion
the error is logged and the loop continues with the next manifest. -/
def processManifests (g : GitOracleR) (version : String) :
    List Manifest → PullRequests
  | [] => []
  | manifest :: rest =>
    if !shouldProcess manifest version then processManifests g version rest
    else if !retryDo (g.commitOk manifest) 0 retryCommitTries then
      processManifests g version rest
    else if manifest.CommitWithoutPR then processManifests g version rest
    else
      match g.createPR manifest with
      | Except.error _ => processManifests g version rest
      | Except.ok url =>
          { env := manifest.Env, url := url, err := none } ::
            processManifests g version rest

/-- C3: the commit is retried `retryCommitTries = 3` times with a fixed
three-second delay; when every attempt for a manifest fails, that manifest
contributes no result entry (the PR-creation branch is unreachable) and the
manifests before and after it are processed exactly as if it were absent. -/
theorem retry_exhaustion_isolated (g : GitOracleR) (version : String)
    (pre post : List Manifest) (m : Manifest)
    (h : ∀ i, i < retryCommitTries → g.commitOk m i = false) :
    retryCommitTries = 3 ∧
    (∀ n, retryDelayNanos n = 3 * second) ∧
    processManifests g version (pre ++ m :: post) =
      processManifests g version (pre ++ post) := by
  refine ⟨rfl, fun _ => rfl, ?_⟩
  have h0 := h 0 (by decide)
  have h1 := h 1 (by decide)
  have h2 := h 2 (by decide)
  have hfail : retryDo (g.commitOk m) 0 retryCommitTries = false := by
    simp [retryDo, retryCommitTries, h0, h1, h2]
  induction pre with
  | nil =>
    cases hs : shouldProcess m version <;>
      simp [processManifests, hs, hfail]
  | cons a rest ih =>
    simp only [List.cons_append, processManifests, List.append_eq, ih]

/-- An oracle whose commit attempts all fail. -/
def gRetryFail : GitOracleR :=
  { commitOk := fun _ _ => false,
    createPR := fun _ => Except.ok "https://github.com/o/m/pull/1" }

/-- Witness for C3: with a manifest whose commits always fail between two
copies of a succeeding sibling, the failing manifest drops out of the result
sequence and the siblings are unaffected. -/
theorem retry_exhaustion_isolated_witness :
    retryCommitTries = 3 ∧
    retryDelayNanos 5 = 3 * second ∧
    processManifests gRetryFail "v1" ([] ++ mNoFilters :: []) =
      processManifests gRetryFail "v1" ([] ++ []) :=
  have hmain := retry_exhaustion_isolated gRetryFail "v1" [] [] mNoFilters
    (fun _ _ => rfl)
  ⟨hmain.1, hmain.2.1 5, hmain.2.2⟩

end Part000

end Flow
